/-
  Verification development for the Onyx note renderer
  (source: src/onyx_render.py).

  We shallow-embed the stroke-reconstruction pipeline:
  the signal smoother (moving_average, subsample, smoothen),
  the point-buffer reshape of the stroke decoder, and the
  per-page path renderer with its tracked paint state.
  Real-number samples are modelled as rationals; all numpy
  array operations are translated componentwise to lists.
-/
import Mathlib

set_option linter.unusedSectionVars false

namespace OnyxRender

/-! ## Signal smoother (src lines 46-82)

numpy arrays along axis 0 are lists; an element is a sample
(a scalar for pressure, a pair for 2-D points).  All axis-0
operations (concatenate, cumsum, slicing, scalar division,
blockwise mean) act componentwise, so we embed the functions
generically over a `ℚ`-module. -/

variable {α : Type} [AddCommGroup α] [Module ℚ α]

/-- Inclusive prefix sums, as computed by `np.cumsum(_, 0)`. -/
def cumsumFrom (acc : α) : List α → List α
  | [] => []
  | x :: xs => (acc + x) :: cumsumFrom (acc + x) xs

/-- `moving_average(bdata, window_size)` (src lines 46-64):
identity for `window_size <= 1`; otherwise edge-pad with
`window_size // 2` copies of the first sample in front and the
rest behind, take windowed cumulative-sum differences and divide
by the window size. -/
def moving_average (bdata : List α) (window_size : ℕ) : List α :=
  if window_size ≤ 1 then bdata
  else
    let first := bdata.take 1
    let last := bdata.drop (bdata.length - 1)
    let before := window_size / 2
    let after := window_size - before
    let padded := (List.replicate before first).flatten ++ bdata ++ (List.replicate after last).flatten
    let csum := cumsumFrom 0 padded
    (List.zipWith (fun a b => a - b) (csum.drop window_size) (csum.take (csum.length - window_size))).map
      (fun y => ((window_size : ℚ)⁻¹) • y)

/-- `subsample(bdata, subsample)` (src lines 67-76): identity for
factor `<= 1`; otherwise pad at the end with copies of the last
sample up to a multiple of the factor, then take blockwise means. -/
def subsample (bdata : List α) (factor : ℕ) : List α :=
  if factor ≤ 1 then bdata
  else
    let padded :=
      if bdata.length % factor = 0 then bdata
      else bdata ++ (List.replicate (factor - bdata.length % factor) (bdata.drop (bdata.length - 1))).flatten
    (List.range (padded.length / factor)).map
      (fun i => ((factor : ℚ)⁻¹) • ((padded.drop (i * factor)).take factor).sum)

/-- `smoothen(bdata, window_size, n_subsample)` (src lines 79-82). -/
def smoothen (bdata : List α) (window_size n_subsample : ℕ) : List α :=
  subsample (moving_average bdata window_size) n_subsample

/-- Output length of `subsample`: `ceil(n / factor)` for `factor ≥ 2`. -/
def subsampleLen (factor n : ℕ) : ℕ :=
  if factor ≤ 1 then n else (n + (factor - 1)) / factor

/-! ## Stroke decoder: reshaping the point buffer (src lines 117-120)

`np.frombuffer` yields a flat sequence of 32-bit floats (modelled as
rationals); `d.reshape(-1, 6)` splits it into rows of 6 values and
raises `ValueError` when the length is not a multiple of 6. -/

/-- Split a flat buffer into consecutive rows of 6 values
(the final row may be shorter; `reshapeSamples` only uses this
when the length is an exact multiple of 6). -/
def chunk6 : List ℚ → List (List ℚ)
  | [] => []
  | x :: xs => (x :: xs.take 5) :: chunk6 (xs.drop 5)
termination_by xs => xs.length
decreasing_by
  simp only [List.length_cons, List.length_drop]
  omega

/-- `d.reshape(-1, 6)` (src line 120): rows of 6 floats, or a
`ValueError` when the float count is not a multiple of 6. -/
def reshapeSamples (floats : List ℚ) : Except Unit (List (List ℚ)) :=
  if floats.length % 6 = 0 then Except.ok (chunk6 floats) else Except.error ()

/-! ## Path renderer (src lines 85-165)

Fixed tuning constants from `render_pdf`. -/

def width_scale : ℚ := 3 / 10
def pageScale : ℚ := 11 * 72
def enable_pressure : Bool := true
def n_subsample : ℕ := 2
def average_win_size : ℕ := 10

/-- Operations issued to the cairo canvas. -/
inductive CanvasOp where
  | setLineWidth (w : ℚ)
  | setSourceRGB (r g b : ℚ)
  | moveTo (x y : ℚ)
  | lineTo (x y : ℚ)
  | stroke
  | showPage
deriving DecidableEq

/-- One stroke row from `NewShapeModel`, after decoding: transformed
(pre page-scale) point positions, normalized per-sample pressures,
thickness, shape type and the packed color integer. -/
structure Stroke where
  points : List (ℚ × ℚ)
  pressure : List ℚ
  thickness : ℚ
  shapeType : ℕ
  color : ℕ
deriving DecidableEq

/-- Tracked previous paint attributes (`prev_color`, `prev_thickness`,
src lines 104-105); the color is the decoded byte triple
`(byte0, byte1, byte2)`. -/
structure PaintState where
  prev_color : ℕ × ℕ × ℕ
  prev_thickness : ℚ
deriving DecidableEq

/-- `color & 0xFF, (color >> 8) & 0xFF, (color >> 16) & 0xFF`
(src line 136): low byte first. -/
def decodeColor (c : ℕ) : ℕ × ℕ × ℕ :=
  (c % 256, c / 256 % 256, c / 65536 % 256)

/-- The walk over the smoothed samples (src lines 150-162): sample 0
is a move-to; each later sample is a line-to, and for pressure
strokes the line width is set per sample before drawing and every
segment is committed immediately and the pen moved back. -/
def drawOps (hasPressure : Bool) (thickness : ℚ)
    (pts : List (ℚ × ℚ)) (prs : List ℚ) : List CanvasOp :=
  (List.range pts.length).flatMap fun r =>
    (if hasPressure
      then [CanvasOp.setLineWidth (max (thickness * width_scale * prs.getD r 0) (1 / 10))]
      else [])
    ++ (if r = 0 then [CanvasOp.moveTo (pts.getD r (0, 0)).1 (pts.getD r (0, 0)).2]
        else [CanvasOp.lineTo (pts.getD r (0, 0)).1 (pts.getD r (0, 0)).2]
          ++ (if hasPressure
              then [CanvasOp.stroke, CanvasOp.moveTo (pts.getD r (0, 0)).1 (pts.getD r (0, 0)).2]
              else []))

/-- The stroke's point sequence after page scaling (src line 143) and
smoothing (src line 147). -/
def smoothedPoints (s : Stroke) : List (ℚ × ℚ) :=
  smoothen (s.points.map fun p => (p.1 * pageScale, p.2 * pageScale))
    average_win_size n_subsample

/-- The stroke's pressure sequence after smoothing (src line 148). -/
def smoothedPressure (s : Stroke) : List ℚ :=
  smoothen s.pressure average_win_size n_subsample

/-- Rendering one stroke (src lines 129-162): flush and set the line
width when the thickness changed, flush and set the source color when
the decoded color changed, scale the points, smooth points and
pressures, then walk the samples. -/
def renderStroke (st : PaintState) (s : Stroke) : PaintState × List CanvasOp :=
  let tOps : List CanvasOp :=
    if st.prev_thickness ≠ s.thickness
      then [CanvasOp.stroke, CanvasOp.setLineWidth (s.thickness * width_scale)]
      else []
  let st1 : PaintState :=
    if st.prev_thickness ≠ s.thickness then ⟨st.prev_color, s.thickness⟩ else st
  let col := decodeColor s.color
  let cOps : List CanvasOp :=
    if col ≠ st1.prev_color
      then [CanvasOp.stroke,
        CanvasOp.setSourceRGB ((col.2.2 : ℚ) / 255) ((col.2.1 : ℚ) / 255) ((col.1 : ℚ) / 255)]
      else []
  let st2 : PaintState := if col ≠ st1.prev_color then ⟨col, st1.prev_thickness⟩ else st1
  let hasP := enable_pressure && (s.shapeType == 5)
  (st2, tOps ++ cOps ++ drawOps hasP s.thickness (smoothedPoints s) (smoothedPressure s))

/-- The inner stroke loop of a page (src line 112). -/
def renderStrokes (st : PaintState) : List Stroke → PaintState × List CanvasOp
  | [] => (st, [])
  | s :: rest =>
    let p1 := renderStroke st s
    let p2 := renderStrokes p1.1 rest
    (p2.1, p1.2 ++ p2.2)

/-- One page: all its strokes, then the trailing flush and the page
emission (src lines 164-165). -/
def renderPage (st : PaintState) (strokes : List Stroke) : PaintState × List CanvasOp :=
  let p := renderStrokes st strokes
  (p.1, p.2 ++ [CanvasOp.stroke, CanvasOp.showPage])

/-- The paint state set up once before the page loop
(src lines 104-105). -/
def initPaint : PaintState := ⟨(0, 0, 0), 0⟩

/-- The page loop of `render_pdf` (src line 108), threading the paint
state across pages; the result keeps each page's operations separate
(their concatenation is the emitted stream). -/
def renderPages (st : PaintState) : List (List Stroke) → PaintState × List (List CanvasOp)
  | [] => (st, [])
  | pg :: rest =>
    let p1 := renderPage st pg
    let p2 := renderPages p1.1 rest
    (p2.1, p1.2 :: p2.2)

/-- Rendering a whole note: the page loop started from the
once-initialized paint state. -/
def renderNote (pages : List (List Stroke)) : List (List CanvasOp) :=
  (renderPages initPaint pages).2

/-! ## Canvas semantics

A small interpreter for `CanvasOp`, following cairo: `line_to`
appends a segment from the current point (or acts as `move_to`
when there is none), `stroke` commits the accumulated path under
the current width and color and clears both path and current
point, committing nothing for an empty path. -/

/-- Mutable canvas state. -/
structure CanvasState where
  lineWidth : ℚ
  rgb : ℚ × ℚ × ℚ
  cur : Option (ℚ × ℚ)
  path : List ((ℚ × ℚ) × (ℚ × ℚ))
deriving DecidableEq

/-- One committed (stroked) path: its segments and the paint
attributes in effect at commit time. -/
structure Committed where
  segs : List ((ℚ × ℚ) × (ℚ × ℚ))
  width : ℚ
  rgb : ℚ × ℚ × ℚ
deriving DecidableEq

/-- Semantics of a single canvas operation. -/
def stepOp (st : CanvasState) : CanvasOp → CanvasState × List Committed
  | CanvasOp.setLineWidth w => ({ st with lineWidth := w }, [])
  | CanvasOp.setSourceRGB r g b => ({ st with rgb := (r, g, b) }, [])
  | CanvasOp.moveTo x y => ({ st with cur := some (x, y) }, [])
  | CanvasOp.lineTo x y =>
    match st.cur with
    | some p => ({ st with cur := some (x, y), path := st.path ++ [(p, (x, y))] }, [])
    | none => ({ st with cur := some (x, y) }, [])
  | CanvasOp.stroke =>
    ({ st with path := [], cur := none },
      if st.path.isEmpty then [] else [⟨st.path, st.lineWidth, st.rgb⟩])
  | CanvasOp.showPage => (st, [])

/-- Run a list of operations, collecting the committed paths. -/
def runOps (st : CanvasState) : List CanvasOp → CanvasState × List Committed
  | [] => (st, [])
  | op :: ops =>
    let p1 := stepOp st op
    let p2 := runOps p1.1 ops
    (p2.1, p1.2 ++ p2.2)

/-- A canvas with an empty current path. -/
def cleanCanvas (st : CanvasState) : Prop := st.path = []

/-! ## Predicates on operation streams -/

/-- Paint-attribute changes applied to the canvas. -/
def isPaintSet : CanvasOp → Bool
  | CanvasOp.setLineWidth _ => true
  | CanvasOp.setSourceRGB _ _ _ => true
  | _ => false

/-- Color sets applied to the canvas. -/
def isColorSet : CanvasOp → Bool
  | CanvasOp.setSourceRGB _ _ _ => true
  | _ => false

/-- Line-to operations. -/
def isLineTo : CanvasOp → Bool
  | CanvasOp.lineTo _ _ => true
  | _ => false

/-- Stroke-commit operations. -/
def isStrokeOp : CanvasOp → Bool
  | CanvasOp.stroke => true
  | _ => false

/-- `flushedAux prevIsFlush ops` holds when every paint-attribute set
in `ops` is immediately preceded by a stroke commit (the flag gives
whether the op just before `ops` was a stroke). -/
def flushedAux : Bool → List CanvasOp → Bool
  | _, [] => true
  | prevIsFlush, op :: rest =>
    (!(isPaintSet op) || prevIsFlush) && flushedAux (isStrokeOp op) rest

/-- Every paint-attribute set in the stream sits directly after a
stroke commit (so no two attribute applications happen without an
intervening flush). -/
def flushedSets (ops : List CanvasOp) : Bool := flushedAux false ops

/-! ## Lemmas about the signal smoother -/

theorem length_cumsumFrom (a : α) (xs : List α) :
    (cumsumFrom a xs).length = xs.length := by
  induction xs generalizing a with
  | nil => rfl
  | cons x xs ih => simp [cumsumFrom, ih]

theorem getElem_cumsumFrom (a : α) (xs : List α) (i : ℕ) (h : i < xs.length)
    (h' : i < (cumsumFrom a xs).length) :
    (cumsumFrom a xs)[i] = a + (xs.take (i + 1)).sum := by
  induction xs generalizing a i with
  | nil => simp at h
  | cons x xs ih =>
    cases i with
    | zero => simp [cumsumFrom]
    | succ i =>
      have hlen : i < (cumsumFrom (a + x) xs).length := by
        rw [length_cumsumFrom]; simpa using h
      simp only [cumsumFrom, List.getElem_cons_succ, List.take_succ_cons, List.sum_cons]
      rw [ih (a + x) i (by simpa using h) hlen, add_assoc]

theorem length_flatten_replicate (k : ℕ) (l : List α) :
    ((List.replicate k l).flatten).length = k * l.length := by
  induction k with
  | zero => simp
  | succ k ih => simp [List.replicate_succ, ih, Nat.succ_mul, Nat.add_comm]

theorem mem_of_mem_flatten_replicate {k : ℕ} {l : List α} {x : α}
    (h : x ∈ (List.replicate k l).flatten) : x ∈ l := by
  rcases List.mem_flatten.mp h with ⟨m, hm, hx⟩
  rcases List.mem_replicate.mp hm with ⟨-, rfl⟩
  exact hx

theorem flatten_replicate_nil (k : ℕ) :
    ((List.replicate k ([] : List α)).flatten) = [] := by
  induction k with
  | zero => rfl
  | succ k ih => simp [List.replicate_succ, ih]

/-- C8 core: the moving average never changes the length of a
non-empty sequence (identity below window 2; otherwise the padded
cumulative-sum trick yields exactly the input length). -/
theorem length_moving_average (xs : List α) (w : ℕ) (hne : xs ≠ []) :
    (moving_average xs w).length = xs.length := by
  by_cases hw : w ≤ 1
  · simp [moving_average, hw]
  · have hx : 0 < xs.length := List.length_pos.mpr hne
    have hf : min 1 xs.length = 1 := by omega
    have hl : xs.length - (xs.length - 1) = 1 := by omega
    simp only [moving_average, hw, if_false, List.length_map, List.length_zipWith,
      List.length_take, List.length_drop, length_cumsumFrom, List.length_append,
      length_flatten_replicate, hf, hl, mul_one]
    omega

/-- Every element of the moving average (window `≥ 2`) is the mean of
a block of `w` values drawn from the input sequence. -/
theorem mem_moving_average {xs : List α} {w : ℕ} (hw : 2 ≤ w) {y : α}
    (hy : y ∈ moving_average xs w) :
    ∃ l : List α, l.length = w ∧ (∀ x ∈ l, x ∈ xs) ∧ y = ((w : ℚ)⁻¹) • l.sum := by
  have hw1 : ¬ w ≤ 1 := by omega
  by_cases hxe : xs = []
  · subst hxe
    simp [moving_average, hw1, flatten_replicate_nil, cumsumFrom] at hy
  have hx : 0 < xs.length := List.length_pos.mpr hxe
  simp only [moving_average, hw1, if_false] at hy
  set padded := (List.replicate (w / 2) (xs.take 1)).flatten ++ xs ++
    (List.replicate (w - w / 2) (xs.drop (xs.length - 1))).flatten with hpad
  set csum := cumsumFrom (0 : α) padded with hcsum
  have hclen : csum.length = padded.length := length_cumsumFrom 0 padded
  have hplen : padded.length = xs.length + w := by
    have hf : min 1 xs.length = 1 := by omega
    have hl : xs.length - (xs.length - 1) = 1 := by omega
    simp only [hpad, List.length_append, length_flatten_replicate, List.length_take,
      List.length_drop, hf, hl, mul_one]
    omega
  rcases List.mem_map.mp hy with ⟨z, hz, rfl⟩
  rcases List.mem_iff_getElem.mp hz with ⟨i, hi, hzi⟩
  have hilt : i < xs.length := by
    rw [List.length_zipWith, List.length_drop, List.length_take, hclen, hplen] at hi
    omega
  refine ⟨(padded.drop (i + 1)).take w, ?_, ?_, ?_⟩
  · rw [List.length_take, List.length_drop, hplen]; omega
  · intro x hx'
    have hx'' : x ∈ padded := List.mem_of_mem_drop (List.mem_of_mem_take hx')
    simp only [hpad, List.mem_append] at hx''
    rcases hx'' with (hx'' | hx'') | hx''
    · exact List.mem_of_mem_take (mem_of_mem_flatten_replicate hx'')
    · exact hx''
    · exact List.mem_of_mem_drop (mem_of_mem_flatten_replicate hx'')
  · have hbd : i < (csum.drop w).length := by rw [List.length_zipWith] at hi; omega
    have hbt : i < (csum.take (csum.length - w)).length := by
      rw [List.length_zipWith] at hi; omega
    have hbw : w + i < csum.length := by rw [hclen, hplen]; omega
    have hbi : i < csum.length := by rw [hclen, hplen]; omega
    have hgz : z = (csum.drop w)[i] - (csum.take (csum.length - w))[i] := by
      rw [← hzi, List.getElem_zipWith]
    have hd : (csum.drop w)[i] = csum[w + i] := List.getElem_drop ..
    have ht : (csum.take (csum.length - w))[i] = csum[i] := List.getElem_take ..
    have hcw : csum[w + i] = 0 + (padded.take (w + i + 1)).sum :=
      getElem_cumsumFrom 0 padded (w + i) (by rw [hplen]; omega) _
    have hci : csum[i] = 0 + (padded.take (i + 1)).sum :=
      getElem_cumsumFrom 0 padded i (by rw [hplen]; omega) _
    have hsplit : padded.take (w + i + 1) =
        padded.take (i + 1) ++ (padded.drop (i + 1)).take w := by
      have he : w + i + 1 = (i + 1) + w := by omega
      rw [he, List.take_add]
    rw [hgz, hd, ht, hcw, hci, hsplit, List.sum_append]
    simp only [zero_add]
    rw [add_sub_cancel_left]

/-- Output length of `subsample`. -/
theorem length_subsample (xs : List α) (s : ℕ) :
    (subsample xs s).length = subsampleLen s xs.length := by
  by_cases hs : s ≤ 1
  · simp [subsample, subsampleLen, hs]
  · have hs0 : 0 < s := by omega
    simp only [subsample, subsampleLen, hs, if_false]
    by_cases hm : xs.length % s = 0
    · simp only [hm, if_true, List.length_map, List.length_range]
      rcases Nat.dvd_of_mod_eq_zero hm with ⟨q, hq⟩
      rw [hq, Nat.mul_div_cancel_left _ hs0, Nat.mul_add_div hs0]
      have h0 : (s - 1) / s = 0 := Nat.div_eq_of_lt (by omega)
      omega
    · have hlt : xs.length % s < s := Nat.mod_lt _ hs0
      have hx : 0 < xs.length := by
        by_contra hx
        have h0 : xs.length = 0 := by omega
        rw [h0] at hm
        simp at hm
      have hl : xs.length - (xs.length - 1) = 1 := by omega
      simp only [hm, if_false, List.length_map, List.length_range, List.length_append,
        length_flatten_replicate, List.length_drop, hl, mul_one]
      obtain ⟨q, hq⟩ : ∃ q, s * q + xs.length % s = xs.length :=
        ⟨xs.length / s, Nat.div_add_mod _ _⟩
      have hsq : s * (q + 1) = s * q + s := by ring
      have e1 : xs.length + (s - xs.length % s) = s * (q + 1) := by omega
      have e2 : xs.length + (s - 1) = s * (q + 1) + (xs.length % s - 1) := by omega
      rw [e1, e2, Nat.mul_div_cancel_left _ hs0, Nat.mul_add_div hs0]
      have h0 : (xs.length % s - 1) / s = 0 := Nat.div_eq_of_lt (by omega)
      omega

/-- Every element of `subsample` (factor `≥ 2`) is the mean of a block
of `s` values drawn from the input sequence. -/
theorem mem_subsample {xs : List α} {s : ℕ} (hs : 2 ≤ s) {y : α}
    (hy : y ∈ subsample xs s) :
    ∃ l : List α, l.length = s ∧ (∀ x ∈ l, x ∈ xs) ∧ y = ((s : ℚ)⁻¹) • l.sum := by
  have hs1 : ¬ s ≤ 1 := by omega
  have hs0 : 0 < s := by omega
  simp only [subsample, hs1, if_false] at hy
  set padded := if xs.length % s = 0 then xs
    else xs ++ (List.replicate (s - xs.length % s) (xs.drop (xs.length - 1))).flatten
    with hpad
  have hdvd : s ∣ padded.length := by
    by_cases hm : xs.length % s = 0
    · simp only [hpad, hm, if_true]
      exact Nat.dvd_of_mod_eq_zero hm
    · have hlt : xs.length % s < s := Nat.mod_lt _ hs0
      have hx : 0 < xs.length := by
        by_contra hx
        have h0 : xs.length = 0 := by omega
        rw [h0] at hm
        simp at hm
      have hl : xs.length - (xs.length - 1) = 1 := by omega
      simp only [hpad, hm, if_false, List.length_append, length_flatten_replicate,
        List.length_drop, hl, mul_one]
      obtain ⟨q, hq⟩ : ∃ q, s * q + xs.length % s = xs.length :=
        ⟨xs.length / s, Nat.div_add_mod _ _⟩
      have hsq : s * (q + 1) = s * q + s := by ring
      exact ⟨q + 1, by omega⟩
  have hmemxs : ∀ x ∈ padded, x ∈ xs := by
    intro x hx
    by_cases hm : xs.length % s = 0
    · simpa [hpad, hm] using hx
    · simp only [hpad, hm, if_false, List.mem_append] at hx
      rcases hx with hx | hx
      · exact hx
      · exact List.mem_of_mem_drop (mem_of_mem_flatten_replicate hx)
  rcases List.mem_map.mp hy with ⟨i, hi, rfl⟩
  have hilt : i < padded.length / s := List.mem_range.mp hi
  refine ⟨(padded.drop (i * s)).take s, ?_, ?_, rfl⟩
  · rw [List.length_take, List.length_drop]
    rcases hdvd with ⟨c, hc⟩
    have hic : i < c := by
      rw [hc, Nat.mul_div_cancel_left _ hs0] at hilt
      exact hilt
    have hle : i * s + s ≤ padded.length := by
      rw [hc]
      calc i * s + s = (i + 1) * s := by ring
      _ ≤ c * s := Nat.mul_le_mul_right s (by omega)
      _ = s * c := by ring
    omega
  · intro x hx
    exact hmemxs x (List.mem_of_mem_drop (List.mem_of_mem_take hx))

/-- The mean of a non-empty list is bounded by any bounds on its
elements. -/
theorem mean_bounds {l : List ℚ} {lo hi : ℚ} (hne : l ≠ [])
    (hb : ∀ x ∈ l, lo ≤ x ∧ x ≤ hi) :
    lo ≤ ((l.length : ℚ)⁻¹) • l.sum ∧ ((l.length : ℚ)⁻¹) • l.sum ≤ hi := by
  have hk : 0 < l.length := List.length_pos.mpr hne
  have hkq : (0 : ℚ) < (l.length : ℚ) := by exact_mod_cast hk
  have h1 : l.length • lo ≤ l.sum := List.card_nsmul_le_sum l lo (fun x hx => (hb x hx).1)
  have h2 : l.sum ≤ l.length • hi := List.sum_le_card_nsmul l hi (fun x hx => (hb x hx).2)
  have hinv : (0 : ℚ) ≤ (l.length : ℚ)⁻¹ := le_of_lt (inv_pos.mpr hkq)
  constructor
  · have h3 := mul_le_mul_of_nonneg_left h1 hinv
    rw [nsmul_eq_mul, ← mul_assoc, inv_mul_cancel₀ (ne_of_gt hkq), one_mul] at h3
    simpa [smul_eq_mul] using h3
  · have h3 := mul_le_mul_of_nonneg_left h2 hinv
    rw [nsmul_eq_mul, ← mul_assoc, inv_mul_cancel₀ (ne_of_gt hkq), one_mul] at h3
    simpa [smul_eq_mul] using h3

/-- The mean of `k ≥ 1` copies of `v` is `v`. -/
theorem inv_smul_sum_replicate {k : ℕ} (hk : 1 ≤ k) (v : α) :
    ((k : ℚ)⁻¹) • (List.replicate k v).sum = v := by
  have hk0 : (k : ℚ) ≠ 0 := by
    exact_mod_cast (by omega : k ≠ 0)
  rw [List.sum_replicate, ← Nat.cast_smul_eq_nsmul ℚ, inv_smul_smul₀ hk0]

theorem moving_average_nil (w : ℕ) : moving_average ([] : List α) w = [] := by
  by_cases hw : w ≤ 1 <;>
    simp [moving_average, hw, flatten_replicate_nil, cumsumFrom]

/-- The moving average maps constant sequences to themselves. -/
theorem moving_average_replicate (n : ℕ) (v : α) (w : ℕ) :
    moving_average (List.replicate n v) w = List.replicate n v := by
  by_cases hw : w ≤ 1
  · simp [moving_average, hw]
  by_cases hn : n = 0
  · subst hn
    simpa using moving_average_nil (α := α) w
  have hne : List.replicate n v ≠ [] := by
    apply List.length_pos.mp
    rw [List.length_replicate]
    omega
  apply List.ext_getElem
  · rw [length_moving_average _ _ hne, List.length_replicate]
  intro i h1 h2
  rw [List.getElem_replicate]
  have hmem := List.getElem_mem h1
  rcases mem_moving_average (by omega) hmem with ⟨l, hl, hlm, he⟩
  have hlv : l = List.replicate w v := by
    rw [List.eq_replicate_iff]
    exact ⟨hl, fun x hx => List.eq_of_mem_replicate (hlm x hx)⟩
  rw [he, hlv, inv_smul_sum_replicate (by omega)]

/-- `subsample` maps constant sequences to shorter constant
sequences with the same value. -/
theorem subsample_replicate (n : ℕ) (v : α) (s : ℕ) :
    subsample (List.replicate n v) s = List.replicate (subsampleLen s n) v := by
  by_cases hs : s ≤ 1
  · simp [subsample, subsampleLen, hs]
  apply List.ext_getElem
  · rw [length_subsample, List.length_replicate, List.length_replicate]
  intro i h1 h2
  rw [List.getElem_replicate]
  have hmem := List.getElem_mem h1
  rcases mem_subsample (by omega) hmem with ⟨l, hl, hlm, he⟩
  have hlv : l = List.replicate s v := by
    rw [List.eq_replicate_iff]
    exact ⟨hl, fun x hx => List.eq_of_mem_replicate (hlm x hx)⟩
  rw [he, hlv, inv_smul_sum_replicate (by omega)]

/-- `chunk6` merely regroups the buffer: flattening restores it. -/
theorem flatten_chunk6 (xs : List ℚ) : (chunk6 xs).flatten = xs := by
  induction xs using chunk6.induct with
  | case1 => simp [chunk6]
  | case2 x xs ih =>
    rw [chunk6]
    simp only [List.flatten_cons, ih, List.cons_append, List.take_append_drop]

/-! ## Claims about the signal smoother and the decoder -/

/-- C8: for every non-empty input and `windowSize ≥ 1`, the moving
average returns a sequence of exactly the input's length. -/
theorem C8_moving_average_preserves_length (xs : List α) (w : ℕ)
    (hw : 1 ≤ w) (hne : xs ≠ []) :
    (moving_average xs w).length = xs.length :=
  length_moving_average xs w hne

/-- C8 witness at a concrete input. -/
theorem C8_witness :
    1 ≤ 10 ∧ ([(1 : ℚ), 2, 3] ≠ []) ∧
      (moving_average [(1 : ℚ), 2, 3] 10).length = [(1 : ℚ), 2, 3].length :=
  ⟨by decide, by decide,
    C8_moving_average_preserves_length [(1 : ℚ), 2, 3] 10 (by decide) (by decide)⟩

/-- C6: a buffer whose length in floats is not a multiple of 6 is a
malformed-input error: `reshape` signals it and yields no row list;
conversely a successful reshape loses no data (flattening the rows
restores the entire buffer, so no silent truncation is possible). -/
theorem C6_reshape_malformed_errors (floats : List ℚ) :
    (floats.length % 6 ≠ 0 → reshapeSamples floats = Except.error ()) ∧
    (∀ rows, reshapeSamples floats = Except.ok rows → rows.flatten = floats) := by
  constructor
  · intro h
    simp [reshapeSamples, h]
  · intro rows hok
    by_cases h : floats.length % 6 = 0
    · simp only [reshapeSamples, h, if_true, Except.ok.injEq] at hok
      rw [← hok, flatten_chunk6]
    · simp [reshapeSamples, h] at hok

/-- C6 witness: a 7-float buffer errors; a 6-float buffer round-trips. -/
theorem C6_witness :
    ([(1 : ℚ), 2, 3, 4, 5, 6, 7].length % 6 ≠ 0 ∧
      reshapeSamples [(1 : ℚ), 2, 3, 4, 5, 6, 7] = Except.error ()) ∧
    (reshapeSamples [(1 : ℚ), 2, 3, 4, 5, 6] = Except.ok [[(1 : ℚ), 2, 3, 4, 5, 6]] ∧
      [[(1 : ℚ), 2, 3, 4, 5, 6]].flatten = [(1 : ℚ), 2, 3, 4, 5, 6]) :=
  ⟨⟨by decide,
      (C6_reshape_malformed_errors [(1 : ℚ), 2, 3, 4, 5, 6, 7]).1 (by decide)⟩,
    ⟨by simp [reshapeSamples, chunk6],
      (C6_reshape_malformed_errors [(1 : ℚ), 2, 3, 4, 5, 6]).2
        [[(1 : ℚ), 2, 3, 4, 5, 6]] (by simp [reshapeSamples, chunk6])⟩⟩

/-- C7 counterexample: `smoothen` applied to the constant sequence
`[1, 1]` with `windowSize = 1` and `subsampleFactor = 2` does not
return the sequence unchanged (the subsampling step halves its
length). -/
theorem C7_counterexample : smoothen [(1 : ℚ), 1] 1 2 ≠ [(1 : ℚ), 1] := by
  intro h
  have hlen := congrArg List.length h
  have h1 : (smoothen [(1 : ℚ), 1] 1 2).length = 1 := by decide
  rw [h1] at hlen
  exact absurd hlen (by decide)

/-- C7 (amended): `smoothen` maps a constant sequence to a constant
sequence with the same value; the moving-average step leaves it
exactly unchanged, while subsampling with factor `≥ 2` shortens the
length to `ceil(n / factor)` (`subsampleLen`). -/
theorem C7_smoothen_constant (n : ℕ) (v : α) (w s : ℕ) :
    moving_average (List.replicate n v) w = List.replicate n v ∧
    smoothen (List.replicate n v) w s = List.replicate (subsampleLen s n) v := by
  refine ⟨moving_average_replicate n v w, ?_⟩
  rw [smoothen, moving_average_replicate, subsample_replicate]

/-- C10: every output element of `moving_average`, `subsample` and
`smoothen` respects any bounds satisfied by all input elements
(smoothing never overshoots the input's range; with `lo`/`hi` the
input's minimum and maximum this is the claimed min–max envelope). -/
theorem C10_smoothing_range_invariant (xs : List ℚ) (w s : ℕ) (lo hi : ℚ)
    (hne : xs ≠ []) (hb : ∀ x ∈ xs, lo ≤ x ∧ x ≤ hi) :
    (∀ y ∈ moving_average xs w, lo ≤ y ∧ y ≤ hi) ∧
    (∀ y ∈ subsample xs s, lo ≤ y ∧ y ≤ hi) ∧
    (∀ y ∈ smoothen xs w s, lo ≤ y ∧ y ≤ hi) := by
  have hma : ∀ ys : List ℚ, (∀ x ∈ ys, lo ≤ x ∧ x ≤ hi) →
      ∀ y ∈ moving_average ys w, lo ≤ y ∧ y ≤ hi := by
    intro ys hbys y hy
    by_cases hw : w ≤ 1
    · exact hbys y (by simpa [moving_average, hw] using hy)
    · rcases mem_moving_average (by omega) hy with ⟨l, hl, hlm, rfl⟩
      have hlne : l ≠ [] := List.length_pos.mp (by omega)
      have hres := mean_bounds hlne (fun x hx => hbys x (hlm x hx))
      rw [hl] at hres
      exact hres
  have hsub : ∀ ys : List ℚ, (∀ x ∈ ys, lo ≤ x ∧ x ≤ hi) →
      ∀ y ∈ subsample ys s, lo ≤ y ∧ y ≤ hi := by
    intro ys hbys y hy
    by_cases hs : s ≤ 1
    · exact hbys y (by simpa [subsample, hs] using hy)
    · rcases mem_subsample (by omega) hy with ⟨l, hl, hlm, rfl⟩
      have hlne : l ≠ [] := List.length_pos.mp (by omega)
      have hres := mean_bounds hlne (fun x hx => hbys x (hlm x hx))
      rw [hl] at hres
      exact hres
  exact ⟨hma xs hb, hsub xs hb, hsub _ (hma xs hb)⟩

/-- C10 witness: all smoothed outputs of `[0, 2]` stay within
`[0, 2]`. -/
theorem C10_witness :
    ([(0 : ℚ), 2] ≠ []) ∧
      ∀ y ∈ smoothen [(0 : ℚ), 2] 10 2, 0 ≤ y ∧ y ≤ 2 :=
  ⟨by decide,
    (C10_smoothing_range_invariant [(0 : ℚ), 2] 10 2 0 2 (by decide)
      (by decide)).2.2⟩

/-! ## Lemmas about the path renderer -/

theorem subsample_nil (s : ℕ) : subsample ([] : List α) s = [] := by
  by_cases hs : s ≤ 1 <;> simp [subsample, hs]

theorem smoothen_nil (w s : ℕ) : smoothen ([] : List α) w s = [] := by
  rw [smoothen, moving_average_nil, subsample_nil]

/-- The sample walk never issues a color set. -/
theorem drawOps_no_colorSet (hasP : Bool) (t : ℚ) (pts : List (ℚ × ℚ))
    (prs : List ℚ) (r g b : ℚ) :
    CanvasOp.setSourceRGB r g b ∉ drawOps hasP t pts prs := by
  intro hmem
  rcases List.mem_flatMap.mp hmem with ⟨i, hi, hin⟩
  by_cases hp : hasP <;> by_cases hi0 : i = 0 <;> simp [hp, hi0] at hin

/-- Without pressure, the sample walk issues no paint sets at all. -/
theorem drawOps_false_no_paintSet (t : ℚ) (pts : List (ℚ × ℚ)) (prs : List ℚ) :
    ∀ op ∈ drawOps false t pts prs, isPaintSet op = false := by
  intro op hop
  rcases List.mem_flatMap.mp hop with ⟨i, hi, hin⟩
  by_cases hi0 : i = 0 <;> simp only [hi0, if_true, if_false, Bool.false_eq_true,
    List.append_nil, List.nil_append, List.mem_singleton] at hin <;>
    subst hin <;> rfl

theorem filter_colorSet_drawOps (hasP : Bool) (t : ℚ) (pts : List (ℚ × ℚ))
    (prs : List ℚ) : (drawOps hasP t pts prs).filter isColorSet = [] := by
  rw [List.filter_eq_nil_iff]
  intro a ha
  cases a with
  | setSourceRGB r g b => exact absurd ha (drawOps_no_colorSet hasP t pts prs r g b)
  | setLineWidth w => simp [isColorSet]
  | moveTo x y => simp [isColorSet]
  | lineTo x y => simp [isColorSet]
  | stroke => simp [isColorSet]
  | showPage => simp [isColorSet]

/-! ## C1: the color actually applied to the canvas -/

/-- C1 counterexample: packed color `0x0000FF` (low byte `255`).  The
claim predicts an applied red channel of `255/255 = 1`, i.e. the
operation `setSourceRGB 1 0 0`; the renderer instead emits
`setSourceRGB 0 0 1` (the low byte feeds the *blue* argument). -/
theorem C1_counterexample :
    ((renderStroke initPaint ⟨[], [], 1, 1, 255⟩).2.filter isColorSet =
      [CanvasOp.setSourceRGB 0 0 1]) ∧
    CanvasOp.setSourceRGB 1 0 0 ∉ (renderStroke initPaint ⟨[], [], 1, 1, 255⟩).2 := by
  constructor
  · norm_num [renderStroke, initPaint, decodeColor, smoothedPoints, smoothedPressure,
      smoothen_nil, drawOps, isColorSet, List.filter]
  · intro hm
    norm_num [renderStroke, initPaint, decodeColor, smoothedPoints, smoothedPressure,
      smoothen_nil, drawOps] at hm
    simp at hm

/-- C1 (amended): the renderer decomposes the packed color into bytes
`byte0` (least significant), `byte1`, `byte2` and, whenever the color
differs from the tracked state, applies `(byte2/255, byte1/255,
byte0/255)` as the canvas `(r, g, b)`; in particular the red channel
applied to the canvas is `((colorPacked >> 16) & 0xFF) / 255`, not
`(colorPacked & 0xFF) / 255`. -/
theorem C1_color_applied (st : PaintState) (s : Stroke)
    (h : decodeColor s.color ≠ st.prev_color) :
    (renderStroke st s).2.filter isColorSet =
      [CanvasOp.setSourceRGB ((s.color / 65536 % 256 : ℕ) / 255 : ℚ)
        ((s.color / 256 % 256 : ℕ) / 255 : ℚ) ((s.color % 256 : ℕ) / 255 : ℚ)] := by
  by_cases ht : st.prev_thickness ≠ s.thickness <;>
    simp [renderStroke, ht, List.filter_append, filter_colorSet_drawOps,
      isColorSet, List.filter, decodeColor] <;>
    rw [if_neg (by simpa [decodeColor] using h)] <;>
    simp [isColorSet, List.filter]

/-- C1 witness: the amended color application at packed color 255. -/
theorem C1_witness :
    (decodeColor 255 ≠ initPaint.prev_color) ∧
    (renderStroke initPaint ⟨[], [], 1, 1, 255⟩).2.filter isColorSet =
      [CanvasOp.setSourceRGB ((255 / 65536 % 256 : ℕ) / 255 : ℚ)
        ((255 / 256 % 256 : ℕ) / 255 : ℚ) ((255 % 256 : ℕ) / 255 : ℚ)] :=
  ⟨by decide, C1_color_applied initPaint ⟨[], [], 1, 1, 255⟩ (by decide)⟩

/-! ## C2: the fixed-width end-to-end scenario -/

/-- C2 counterexample: the scenario stroke (color `0x0000FF`,
thickness `2`, shapeType `1`, 3 collinear samples) draws only one
line-to, not two: the fixed smoothing configuration (window 10,
subsample 2) reduces the 3 samples to 2 points. -/
theorem C2_counterexample :
    ((renderPage initPaint [⟨[(0, 0), (1, 1), (2, 2)], [1, 1, 1], 2, 1, 255⟩]).2.countP
        isLineTo = 1) ∧
    ((renderPage initPaint [⟨[(0, 0), (1, 1), (2, 2)], [1, 1, 1], 2, 1, 255⟩]).2.countP
        isLineTo ≠ 2) := by
  constructor <;> decide

/-- C2 (amended): rendering the scenario stroke from the initial
paint state emits exactly: an (empty-path) flush followed by the
width set to `0.6`, an (empty-path) flush followed by the color set
to `(0, 0, 1)`, a path of one move-to and one line-to (the smoothing
step reduces the 3 samples to 2 points), and one final stroke-commit
before the page is emitted. -/
theorem C2_scenario_ops :
    (renderPage initPaint [⟨[(0, 0), (1, 1), (2, 2)], [1, 1, 1], 2, 1, 255⟩]).2 =
      [CanvasOp.stroke, CanvasOp.setLineWidth (3 / 5),
       CanvasOp.stroke, CanvasOp.setSourceRGB 0 0 1,
       CanvasOp.moveTo 792 792, CanvasOp.lineTo (5148 / 5) (5148 / 5),
       CanvasOp.stroke, CanvasOp.showPage] := by
  norm_num [renderPage, renderStrokes, renderStroke, initPaint, decodeColor,
    smoothedPoints, smoothedPressure, smoothen, moving_average, subsample, cumsumFrom,
    drawOps, width_scale, pageScale, average_win_size, n_subsample, enable_pressure,
    List.replicate, List.range_succ, List.getD, Prod.smul_mk, Prod.mk_add_mk,
    Prod.mk_sub_mk, smul_eq_mul]

/-! ## C3: paint state across page boundaries -/

theorem renderPages_append_single (st : PaintState) (pgs : List (List Stroke))
    (pg : List Stroke) :
    (renderPages st (pgs ++ [pg])).2 =
      (renderPages st pgs).2 ++ [(renderPage (renderPages st pgs).1 pg).2] := by
  induction pgs generalizing st with
  | nil => simp [renderPages]
  | cons p rest ih => simp [renderPages, ih]

theorem length_renderPages (st : PaintState) (pgs : List (List Stroke)) :
    (renderPages st pgs).2.length = pgs.length := by
  induction pgs generalizing st with
  | nil => rfl
  | cons p rest ih => simp [renderPages, ih]

/-- A stroke whose attributes equal the tracked state, and which is
not pressure-rendered, applies no paint attribute to the canvas. -/
theorem renderStroke_matching_no_paintSet (st : PaintState) (s : Stroke)
    (hshape : s.shapeType ≠ 5) (hc : decodeColor s.color = st.prev_color)
    (ht : s.thickness = st.prev_thickness) :
    (renderStroke st s).2.countP isPaintSet = 0 := by
  have hb : (s.shapeType == 5) = false := beq_eq_false_iff_ne.mpr hshape
  have ht' : ¬ st.prev_thickness ≠ s.thickness := not_not.mpr ht.symm
  have hc' : ¬ decodeColor s.color ≠ st.prev_color := not_not.mpr hc
  simp only [renderStroke, enable_pressure, hb, Bool.and_false, if_neg ht', if_neg hc',
    List.nil_append]
  exact List.countP_eq_zero.mpr (fun a ha => by
    simp [drawOps_false_no_paintSet s.thickness _ _ a ha])

/-- C3 counterexample: two pages, each with the same single stroke
(thickness 1, color 7).  On the first page the stroke triggers both
attribute sets; on the second page it triggers none — the paint
state was not reset at the page boundary, so the first stroke of a
page does not always cause a flush and a fresh set of both
attributes. -/
theorem C3_counterexample :
    (((renderNote [[⟨[(0, 0)], [1], 1, 1, 7⟩], [⟨[(0, 0)], [1], 1, 1, 7⟩]]).getD 0
        []).countP isPaintSet = 2) ∧
    (((renderNote [[⟨[(0, 0)], [1], 1, 1, 7⟩], [⟨[(0, 0)], [1], 1, 1, 7⟩]]).getD 1
        []).countP isPaintSet = 0) := by
  constructor <;> decide

/-- C3 (amended): the paint state is initialized once, before the
first page (to color bytes `(0,0,0)` and thickness `0`), and persists
across page boundaries: appending a page whose (non-pressure) first
stroke matches the carried-over state renders that page without any
paint-attribute set, so no flush-plus-set is triggered at the page
start. -/
theorem C3_paint_state_persists (st : PaintState) (pgs : List (List Stroke)) (s : Stroke)
    (hshape : s.shapeType ≠ 5)
    (hc : decodeColor s.color = (renderPages st pgs).1.prev_color)
    (ht : s.thickness = (renderPages st pgs).1.prev_thickness) :
    ((renderPages st (pgs ++ [[s]])).2.getD pgs.length []).countP isPaintSet = 0 := by
  rw [renderPages_append_single]
  have hlen : (renderPages st pgs).2.length = pgs.length := length_renderPages st pgs
  have hget : ∀ (l : List (List CanvasOp)) (x : List CanvasOp),
      (l ++ [x]).getD l.length [] = x := by
    intro l x
    induction l with
    | nil => rfl
    | cons a l ih => simp [List.getD]
  rw [← hlen, hget]
  simp only [renderPage, renderStrokes, List.append_nil]
  rw [List.countP_append]
  rw [renderStroke_matching_no_paintSet _ s hshape hc ht]
  rfl

/-- C3 witness: the persistence theorem at the concrete two-page
input of the counterexample. -/
theorem C3_witness :
    ((⟨[(0, 0)], [1], 1, 1, 7⟩ : Stroke).shapeType ≠ 5 ∧
      decodeColor (⟨[(0, 0)], [1], 1, 1, 7⟩ : Stroke).color =
        (renderPages initPaint [[⟨[(0, 0)], [1], 1, 1, 7⟩]]).1.prev_color ∧
      (⟨[(0, 0)], [1], 1, 1, 7⟩ : Stroke).thickness =
        (renderPages initPaint [[⟨[(0, 0)], [1], 1, 1, 7⟩]]).1.prev_thickness) ∧
    ((renderPages initPaint
        ([[⟨[(0, 0)], [1], 1, 1, 7⟩]] ++ [[⟨[(0, 0)], [1], 1, 1, 7⟩]])).2.getD
          [[(⟨[(0, 0)], [1], 1, 1, 7⟩ : Stroke)]].length []).countP isPaintSet = 0 :=
  ⟨⟨by decide, by decide, by decide⟩,
    C3_paint_state_persists initPaint [[⟨[(0, 0)], [1], 1, 1, 7⟩]]
      ⟨[(0, 0)], [1], 1, 1, 7⟩ (by decide) (by decide) (by decide)⟩

/-! ## C5: flush ordering around paint-attribute changes -/

/-- Whether the operation just before the continuation is a stroke
commit, after running `ops` (starting from flag `b`). -/
def lastFlush (b : Bool) : List CanvasOp → Bool
  | [] => b
  | op :: rest => lastFlush (isStrokeOp op) rest

theorem flushedAux_append (b : Bool) (xs ys : List CanvasOp) :
    flushedAux b (xs ++ ys) = (flushedAux b xs && flushedAux (lastFlush b xs) ys) := by
  induction xs generalizing b with
  | nil => simp [flushedAux, lastFlush]
  | cons op rest ih => simp [flushedAux, lastFlush, ih, Bool.and_assoc]

theorem flushedAux_of_no_paintSet {ops : List CanvasOp}
    (h : ∀ op ∈ ops, isPaintSet op = false) (b : Bool) : flushedAux b ops = true := by
  induction ops generalizing b with
  | nil => rfl
  | cons op rest ih =>
    have h0 := h op (List.mem_cons_self op rest)
    simp [flushedAux, h0, ih (fun x hx => h x (List.mem_cons_of_mem _ hx))]

/-- A non-pressure stroke keeps the flush-before-set discipline, no
matter what operation preceded it. -/
theorem flushedAux_renderStroke (st : PaintState) (s : Stroke)
    (hshape : s.shapeType ≠ 5) (b : Bool) :
    flushedAux b (renderStroke st s).2 = true := by
  have hb : (s.shapeType == 5) = false := beq_eq_false_iff_ne.mpr hshape
  have hdraw : ∀ b' : Bool,
      flushedAux b' (drawOps false s.thickness (smoothedPoints s) (smoothedPressure s)) =
        true :=
    fun b' => flushedAux_of_no_paintSet (drawOps_false_no_paintSet _ _ _) b'
  by_cases ht : st.prev_thickness ≠ s.thickness <;>
    by_cases hc : decodeColor s.color ≠ st.prev_color <;>
    simp [renderStroke, enable_pressure, hb, ht, hc, flushedAux_append, flushedAux,
      isPaintSet, isStrokeOp, lastFlush, hdraw]

theorem flushedAux_renderStrokes (strokes : List Stroke) :
    ∀ (st : PaintState) (b : Bool), (∀ s ∈ strokes, s.shapeType ≠ 5) →
      flushedAux b (renderStrokes st strokes).2 = true := by
  induction strokes with
  | nil => intro st b h; rfl
  | cons s rest ih =>
    intro st b h
    simp only [renderStrokes]
    rw [flushedAux_append, flushedAux_renderStroke st s (h s (List.mem_cons_self s rest)) b,
      ih _ _ (fun x hx => h x (List.mem_cons_of_mem _ hx))]
    rfl

/-- C5 counterexample: a page with one pressure stroke (shapeType 5,
four identical samples).  Its operation stream applies two
consecutive line-width sets with no stroke commit between them (the
change-triggered width set, then the first per-sample width set), so
the stream violates the claimed discipline. -/
theorem C5_counterexample :
    flushedSets (renderPage initPaint
      [⟨[(0, 0), (0, 0), (0, 0), (0, 0)], [1, 1, 1, 1], 1, 5, 0⟩]).2 = false := by
  decide

/-- C5 (amended): whenever a stroke's thickness differs from the
tracked state, the stream begins with a stroke commit immediately
followed by the width set; when only the color differs, it begins
with a stroke commit immediately followed by the color set; and for
pages all of whose strokes are not pressure-rendered (shapeType ≠ 5),
every paint set in the page's operation stream sits directly after a
stroke commit, so no two paint-state changes are ever applied without
an intervening flush.  (Pressure strokes are exempt: their
per-segment width sets recur without a flush before the first
segment.) -/
theorem C5_flush_before_paint_sets :
    (∀ (st : PaintState) (strokes : List Stroke),
      (∀ s ∈ strokes, s.shapeType ≠ 5) →
        flushedSets (renderPage st strokes).2 = true) ∧
    (∀ (st : PaintState) (s : Stroke), st.prev_thickness ≠ s.thickness →
      ∃ rest, (renderStroke st s).2 =
        CanvasOp.stroke :: CanvasOp.setLineWidth (s.thickness * width_scale) :: rest) ∧
    (∀ (st : PaintState) (s : Stroke), st.prev_thickness = s.thickness →
      decodeColor s.color ≠ st.prev_color →
      ∃ rest, (renderStroke st s).2 =
        CanvasOp.stroke ::
          CanvasOp.setSourceRGB (((decodeColor s.color).2.2 : ℚ) / 255)
            (((decodeColor s.color).2.1 : ℚ) / 255)
            (((decodeColor s.color).1 : ℚ) / 255) :: rest) := by
  refine ⟨?_, ?_, ?_⟩
  · intro st strokes h
    rw [flushedSets, renderPage]
    rw [flushedAux_append, flushedAux_renderStrokes strokes st false h]
    rfl
  · intro st s ht
    have key : (renderStroke st s).2 =
        CanvasOp.stroke :: CanvasOp.setLineWidth (s.thickness * width_scale) ::
          ((if decodeColor s.color ≠
              (PaintState.mk st.prev_color s.thickness).prev_color
            then [CanvasOp.stroke,
              CanvasOp.setSourceRGB (((decodeColor s.color).2.2 : ℚ) / 255)
                (((decodeColor s.color).2.1 : ℚ) / 255)
                (((decodeColor s.color).1 : ℚ) / 255)]
            else []) ++
            drawOps (enable_pressure && (s.shapeType == 5)) s.thickness
              (smoothedPoints s) (smoothedPressure s)) := by
      simp only [renderStroke]
      rw [if_pos ht, if_pos ht]
      rfl
    exact ⟨_, key⟩
  · intro st s ht hc
    have ht' : ¬ st.prev_thickness ≠ s.thickness := not_not.mpr ht
    have key : (renderStroke st s).2 =
        CanvasOp.stroke ::
          CanvasOp.setSourceRGB (((decodeColor s.color).2.2 : ℚ) / 255)
            (((decodeColor s.color).2.1 : ℚ) / 255)
            (((decodeColor s.color).1 : ℚ) / 255) ::
          drawOps (enable_pressure && (s.shapeType == 5)) s.thickness
            (smoothedPoints s) (smoothedPressure s) := by
      simp only [renderStroke]
      rw [if_neg ht', if_neg ht', if_pos hc]
      rfl
    exact ⟨_, key⟩

/-- C5 witness: the amended discipline at concrete inputs. -/
theorem C5_witness :
    ((∀ s ∈ [(⟨[(0, 0)], [1], 1, 1, 7⟩ : Stroke)], s.shapeType ≠ 5) ∧
      flushedSets (renderPage initPaint [⟨[(0, 0)], [1], 1, 1, 7⟩]).2 = true) ∧
    (initPaint.prev_thickness ≠ (⟨[(0, 0)], [1], 1, 1, 7⟩ : Stroke).thickness ∧
      ∃ rest, (renderStroke initPaint ⟨[(0, 0)], [1], 1, 1, 7⟩).2 =
        CanvasOp.stroke :: CanvasOp.setLineWidth (1 * width_scale) :: rest) ∧
    ((⟨(7, 0, 0), 1⟩ : PaintState).prev_thickness =
        (⟨[(0, 0)], [1], 1, 2, 9⟩ : Stroke).thickness ∧
      decodeColor 9 ≠ (⟨(7, 0, 0), 1⟩ : PaintState).prev_color ∧
      ∃ rest, (renderStroke ⟨(7, 0, 0), 1⟩ ⟨[(0, 0)], [1], 1, 2, 9⟩).2 =
        CanvasOp.stroke ::
          CanvasOp.setSourceRGB (((decodeColor 9).2.2 : ℚ) / 255)
            (((decodeColor 9).2.1 : ℚ) / 255)
            (((decodeColor 9).1 : ℚ) / 255) :: rest) :=
  ⟨⟨by decide, C5_flush_before_paint_sets.1 initPaint [⟨[(0, 0)], [1], 1, 1, 7⟩]
      (by decide)⟩,
    ⟨by decide, C5_flush_before_paint_sets.2.1 initPaint ⟨[(0, 0)], [1], 1, 1, 7⟩
      (by decide)⟩,
    ⟨by decide, by decide, C5_flush_before_paint_sets.2.2 ⟨(7, 0, 0), 1⟩
      ⟨[(0, 0)], [1], 1, 2, 9⟩ (by decide) (by decide)⟩⟩

/-! ## Running the canvas semantics over a pressure stroke -/

theorem runOps_append (st : CanvasState) (xs ys : List CanvasOp) :
    runOps st (xs ++ ys) =
      ((runOps (runOps st xs).1 ys).1,
        (runOps st xs).2 ++ (runOps (runOps st xs).1 ys).2) := by
  induction xs generalizing st with
  | nil => simp [runOps]
  | cons op rest ih => simp [runOps, ih]

/-- The operations issued for one sample of a pressure stroke. -/
def pressureBlock (t : ℚ) (pts : List (ℚ × ℚ)) (prs : List ℚ) (r : ℕ) :
    List CanvasOp :=
  CanvasOp.setLineWidth (max (t * width_scale * prs.getD r 0) (1 / 10)) ::
    (if r = 0 then [CanvasOp.moveTo (pts.getD r (0, 0)).1 (pts.getD r (0, 0)).2]
     else [CanvasOp.lineTo (pts.getD r (0, 0)).1 (pts.getD r (0, 0)).2,
       CanvasOp.stroke, CanvasOp.moveTo (pts.getD r (0, 0)).1 (pts.getD r (0, 0)).2])

theorem drawOps_true_eq (t : ℚ) (pts : List (ℚ × ℚ)) (prs : List ℚ) :
    drawOps true t pts prs =
      (List.range pts.length).flatMap (pressureBlock t pts prs) := rfl

/-- Running the sample-zero block: sets the width, moves the pen,
commits nothing. -/
theorem runOps_pressureBlock_zero (t : ℚ) (pts : List (ℚ × ℚ)) (prs : List ℚ)
    (st : CanvasState) (hpath : st.path = []) :
    runOps st (pressureBlock t pts prs 0) =
      (⟨max (t * width_scale * prs.getD 0 0) (1 / 10), st.rgb,
        some (pts.getD 0 (0, 0)), []⟩, []) := by
  rcases st with ⟨w0, rgb0, cur0, path0⟩
  simp only at hpath
  subst hpath
  simp [pressureBlock, runOps, stepOp]

/-- Running the block of sample `a ≥ 1`: draws and immediately
commits the single segment from the previous sample, under the width
just set from this sample's pressure. -/
theorem runOps_pressureBlock (t : ℚ) (pts : List (ℚ × ℚ)) (prs : List ℚ)
    (a : ℕ) (ha : 1 ≤ a) (st : CanvasState) (hpath : st.path = [])
    (hcur : st.cur = some (pts.getD (a - 1) (0, 0))) :
    runOps st (pressureBlock t pts prs a) =
      (⟨max (t * width_scale * prs.getD a 0) (1 / 10), st.rgb,
          some (pts.getD a (0, 0)), []⟩,
        [⟨[(pts.getD (a - 1) (0, 0), pts.getD a (0, 0))],
          max (t * width_scale * prs.getD a 0) (1 / 10), st.rgb⟩]) := by
  have ha0 : ¬ a = 0 := by omega
  rcases st with ⟨w0, rgb0, cur0, path0⟩
  simp only at hpath hcur
  subst hpath
  subst hcur
  simp [pressureBlock, ha0, runOps, stepOp]

/-- Running the per-sample blocks from sample `a ≥ 1` onwards: one
committed single-segment path per sample, each at the width derived
from that sample's smoothed pressure. -/
theorem runOps_pressure_chain (t : ℚ) (pts : List (ℚ × ℚ)) (prs : List ℚ) :
    ∀ (n a : ℕ) (st : CanvasState), 1 ≤ a → st.path = [] →
      st.cur = some (pts.getD (a - 1) (0, 0)) →
      ∃ wfin,
        runOps st ((List.range' a n).flatMap (pressureBlock t pts prs)) =
          (⟨wfin, st.rgb, some (pts.getD (a + n - 1) (0, 0)), []⟩,
            (List.range' a n).map fun r =>
              ⟨[(pts.getD (r - 1) (0, 0), pts.getD r (0, 0))],
                max (t * width_scale * prs.getD r 0) (1 / 10), st.rgb⟩) := by
  intro n
  induction n with
  | zero =>
    intro a st ha hpath hcur
    refine ⟨st.lineWidth, ?_⟩
    rcases st with ⟨w0, rgb0, cur0, path0⟩
    simp only at hpath hcur
    subst hpath
    subst hcur
    simp [runOps, List.range']
  | succ n ih =>
    intro a st ha hpath hcur
    rw [List.range'_succ, List.flatMap_cons, runOps_append,
      runOps_pressureBlock t pts prs a ha st hpath hcur]
    rcases ih (a + 1)
        ⟨max (t * width_scale * prs.getD a 0) (1 / 10), st.rgb,
          some (pts.getD a (0, 0)), []⟩
        (by omega) rfl (by simp) with ⟨wfin, hA⟩
    refine ⟨wfin, ?_⟩
    rw [hA]
    have hidx : a + 1 + n - 1 = a + (n + 1) - 1 := by omega
    rw [hidx, List.map_cons]
    simp

/-- Running the two (possibly empty) attribute-change flush blocks
from a clean canvas commits nothing and leaves the path clean. -/
theorem runOps_flush_blocks (st0 : CanvasState) (hpath : st0.path = [])
    (c1 c2 : Prop) [Decidable c1] [Decidable c2] (w : ℚ) (r g b : ℚ) :
    ∃ stB : CanvasState,
      runOps st0 ((if c1 then [CanvasOp.stroke, CanvasOp.setLineWidth w] else []) ++
        (if c2 then [CanvasOp.stroke, CanvasOp.setSourceRGB r g b] else [])) =
        (stB, []) ∧ stB.path = [] := by
  rcases st0 with ⟨w0, rgb0, cur0, path0⟩
  simp only at hpath
  subst hpath
  by_cases h1 : c1 <;> by_cases h2 : c2 <;>
    simp [h1, h2, runOps, stepOp]

/-- Running a rendered pressure stroke from any clean canvas: the
committed paths are exactly one single-segment path per smoothed
sample `r ≥ 1` (segment from sample `r-1` to sample `r`), committed
at width `max(thickness * widthScale * pressure[r], 0.1)`, all under
one color `c`. -/
theorem runOps_renderStroke_pressure (pst : PaintState) (s : Stroke)
    (st0 : CanvasState) (hshape : s.shapeType = 5) (hpath : st0.path = [])
    (hN : 1 ≤ (smoothedPoints s).length) :
    ∃ c : ℚ × ℚ × ℚ,
      (runOps st0 (renderStroke pst s).2).2 =
        (List.range' 1 ((smoothedPoints s).length - 1)).map fun r =>
          ⟨[((smoothedPoints s).getD (r - 1) (0, 0),
              (smoothedPoints s).getD r (0, 0))],
            max (s.thickness * width_scale * (smoothedPressure s).getD r 0) (1 / 10),
            c⟩ := by
  have hb : (s.shapeType == 5) = true := by simp [hshape]
  obtain ⟨m, hm⟩ : ∃ m, (smoothedPoints s).length = m + 1 :=
    ⟨(smoothedPoints s).length - 1, by omega⟩
  have hops : (renderStroke pst s).2 =
      ((if pst.prev_thickness ≠ s.thickness
          then [CanvasOp.stroke, CanvasOp.setLineWidth (s.thickness * width_scale)]
          else []) ++
        (if decodeColor s.color ≠
            (if pst.prev_thickness ≠ s.thickness
              then (PaintState.mk pst.prev_color s.thickness) else pst).prev_color
          then [CanvasOp.stroke,
            CanvasOp.setSourceRGB (((decodeColor s.color).2.2 : ℚ) / 255)
              (((decodeColor s.color).2.1 : ℚ) / 255)
              (((decodeColor s.color).1 : ℚ) / 255)]
          else [])) ++
      drawOps true s.thickness (smoothedPoints s) (smoothedPressure s) := by
    simp only [renderStroke, hb, enable_pressure, Bool.true_and, List.append_assoc]
  rcases runOps_flush_blocks st0 hpath (pst.prev_thickness ≠ s.thickness)
      (decodeColor s.color ≠
        (if pst.prev_thickness ≠ s.thickness
          then (PaintState.mk pst.prev_color s.thickness) else pst).prev_color)
      (s.thickness * width_scale)
      (((decodeColor s.color).2.2 : ℚ) / 255) (((decodeColor s.color).2.1 : ℚ) / 255)
      (((decodeColor s.color).1 : ℚ) / 255) with ⟨stB, hB, hBpath⟩
  refine ⟨stB.rgb, ?_⟩
  rw [hops, runOps_append, hB]
  rw [drawOps_true_eq, List.range_eq_range', hm, List.range'_succ, List.flatMap_cons,
    runOps_append, runOps_pressureBlock_zero _ _ _ stB hBpath]
  rcases runOps_pressure_chain s.thickness (smoothedPoints s) (smoothedPressure s) m 1
      ⟨max (s.thickness * width_scale * (smoothedPressure s).getD 0 0) (1 / 10),
        stB.rgb, some ((smoothedPoints s).getD 0 (0, 0)), []⟩
      (le_refl 1) rfl rfl with ⟨wfin, hchain⟩
  rw [hchain]
  simp

/-! ## C4 and C9: per-segment commits of pressure strokes -/

/-- C4: a pressure stroke (shapeType 5, pressure enabled) with `N ≥ 2`
smoothed samples commits exactly one stroked path per drawn line
segment — `N - 1` commits — and the width of each committed segment
is `max(thickness * widthScale * pressure, 0.1)` at that segment's
sample, so widths can differ per segment. -/
theorem C4_one_commit_per_segment (pst : PaintState) (s : Stroke)
    (st0 : CanvasState) (hshape : s.shapeType = 5) (hpath : st0.path = [])
    (hN : 2 ≤ (smoothedPoints s).length) :
    (runOps st0 (renderStroke pst s).2).2.length = (smoothedPoints s).length - 1 ∧
    (runOps st0 (renderStroke pst s).2).2.map Committed.width =
      (List.range' 1 ((smoothedPoints s).length - 1)).map fun r =>
        max (s.thickness * width_scale * (smoothedPressure s).getD r 0) (1 / 10) := by
  rcases runOps_renderStroke_pressure pst s st0 hshape hpath (by omega) with ⟨c, hc⟩
  rw [hc]
  constructor
  · rw [List.length_map, List.length_range']
  · rw [List.map_map]
    rfl

/-- A concrete pressure stroke and clean canvas used by the C4 and C9
witnesses. -/
def pStroke : Stroke := ⟨[(0, 0), (1, 0), (2, 0), (3, 0)], [1, 2, 3, 4], 2, 5, 0⟩

def pCanvas : CanvasState := ⟨1, (0, 0, 0), none, []⟩

/-- C4 witness at the concrete pressure stroke. -/
theorem C4_witness :
    (pStroke.shapeType = 5 ∧ pCanvas.path = [] ∧
      2 ≤ (smoothedPoints pStroke).length) ∧
    ((runOps pCanvas (renderStroke initPaint pStroke).2).2.length =
        (smoothedPoints pStroke).length - 1 ∧
      (runOps pCanvas (renderStroke initPaint pStroke).2).2.map Committed.width =
        (List.range' 1 ((smoothedPoints pStroke).length - 1)).map fun r =>
          max (pStroke.thickness * width_scale * (smoothedPressure pStroke).getD r 0)
            (1 / 10)) :=
  ⟨⟨rfl, rfl, by decide⟩,
    C4_one_commit_per_segment initPaint pStroke pCanvas rfl rfl (by decide)⟩

/-- C9: for a pressure stroke, the committed path of every index
`r ≥ 1` is the single segment from smoothed sample `r-1` to smoothed
sample `r`, and its width is determined solely by the smoothed
pressure at the segment's *end* sample `r` (not the start sample and
not an average). -/
theorem C9_segment_width_from_end_sample (pst : PaintState) (s : Stroke)
    (st0 : CanvasState) (hshape : s.shapeType = 5) (hpath : st0.path = [])
    (hN : 2 ≤ (smoothedPoints s).length) :
    (runOps st0 (renderStroke pst s).2).2.map Committed.segs =
      (List.range' 1 ((smoothedPoints s).length - 1)).map (fun r =>
        [((smoothedPoints s).getD (r - 1) (0, 0),
          (smoothedPoints s).getD r (0, 0))]) ∧
    (runOps st0 (renderStroke pst s).2).2.map Committed.width =
      (List.range' 1 ((smoothedPoints s).length - 1)).map fun r =>
        max (s.thickness * width_scale * (smoothedPressure s).getD r 0) (1 / 10) := by
  rcases runOps_renderStroke_pressure pst s st0 hshape hpath (by omega) with ⟨c, hc⟩
  rw [hc]
  constructor <;> rw [List.map_map] <;> rfl

/-- C9 witness at the concrete pressure stroke. -/
theorem C9_witness :
    (pStroke.shapeType = 5 ∧ pCanvas.path = [] ∧
      2 ≤ (smoothedPoints pStroke).length) ∧
    ((runOps pCanvas (renderStroke initPaint pStroke).2).2.map Committed.segs =
        (List.range' 1 ((smoothedPoints pStroke).length - 1)).map (fun r =>
          [((smoothedPoints pStroke).getD (r - 1) (0, 0),
            (smoothedPoints pStroke).getD r (0, 0))]) ∧
      (runOps pCanvas (renderStroke initPaint pStroke).2).2.map Committed.width =
        (List.range' 1 ((smoothedPoints pStroke).length - 1)).map fun r =>
          max (pStroke.thickness * width_scale * (smoothedPressure pStroke).getD r 0)
            (1 / 10)) :=
  ⟨⟨rfl, rfl, by decide⟩,
    C9_segment_width_from_end_sample initPaint pStroke pCanvas rfl rfl (by decide)⟩

end OnyxRender
